import Mathlib

/-!
Verification of the macro autocomplete context parser and option logic
(`public/scripts/autocomplete/EnhancedMacroAutoCompleteOption.js`).

Strings are modelled as `List Char` (JS strings are sequences of code
units; all inputs considered here are within the BMP, where the two views
agree).  The caret offset is modelled as `Int`, since the source is total
over arbitrary integer offsets (out-of-range indexing in JS yields
`undefined`, modelled by `Option.none`).
-/

/-- JS `/\s/` whitespace class (ECMAScript WhiteSpace + LineTerminator),
used by the source's whitespace tests, `trimStart`, `trim`. -/
def isSpace (c : Char) : Bool :=
  c == ' ' || c == '\t' || c == '\n' || c == '\r' ||
  c.toNat == 0xB || c.toNat == 0xC || c.toNat == 0xA0 || c.toNat == 0x1680 ||
  (0x2000 ≤ c.toNat && c.toNat ≤ 0x200A) ||
  c.toNat == 0x2028 || c.toNat == 0x2029 || c.toNat == 0x202F ||
  c.toNat == 0x205F || c.toNat == 0x3000 || c.toNat == 0xFEFF

/-- JS `/[a-zA-Z_]/`: identifier characters recognised after `/` in the
closing-tag check of the flag scanner. -/
def isIdentChar (c : Char) : Bool :=
  ('a' ≤ c && c ≤ 'z') || ('A' ≤ c && c ≤ 'Z') || c == '_'

/-- Modelled from the spec: the flag table (`macros/engine/MacroFlags.js`,
not among the sources) is a fixed set of single-character flag symbols.
The spec names `!` and `?` as flag symbols in its scenarios and states
that `/` "may otherwise be a valid flag symbol". -/
def ValidFlagSymbols : List Char := ['!', '?', '/']

/-- JS string indexing `s[i]`: `undefined` (here `none`) outside `[0, length)`. -/
def charAt (s : List Char) (i : Int) : Option Char :=
  if 0 ≤ i then s[i.toNat]? else none

/-- Whether the head of `l` is an identifier character (the `i + 1 <
macroText.length && /[a-zA-Z_]/.test(macroText[i + 1])` test). -/
def headIsIdent (l : List Char) : Bool :=
  match l.head? with
  | some c => isIdentChar c
  | none => false

/-- The flag-scanning loop (source lines 578-596).  It walks the text one
character at a time; `afterFlag` records that at least one flag was just
consumed, in which case a whitespace run is skipped (the inner
`while (/\s/)` loop) before the next candidate is tested.  Returns the
collected flags, the position right after each flag (before any
whitespace), the final scan position `i`, and the unconsumed suffix. -/
def scanFlags : List Char → Nat → Bool → List Char × List Nat × Nat × List Char
  | [], i, _ => ([], [], i, [])
  | c :: rest, i, afterFlag =>
    if afterFlag = true ∧ isSpace c = true then
      scanFlags rest (i + 1) true
    else if c = '/' ∧ headIsIdent rest = true then
      ([], [], i, c :: rest)
    else if ValidFlagSymbols.contains c = true then
      let r := scanFlags rest (i + 1) true
      (c :: r.1, (i + 1) :: r.2.1, r.2.2.1, r.2.2.2)
    else
      ([], [], i, c :: rest)

/-- The `::`-segmentation loop (source lines 620-633).  `total` is
`macroText.length` (the recorded end of the final part).  Produces the
parts as `(text, start, end)` triples and the separator `[start, end)`
position pairs. -/
def splitLoop (total : Nat) : List Char → Nat → List Char → Nat →
    List (List Char × Nat × Nat) × List (Nat × Nat)
  | [], _, cur, partStart => ([(cur, partStart, total)], [])
  | ':' :: ':' :: rest, pos, cur, partStart =>
    let r := splitLoop total rest (pos + 2) [] (pos + 2)
    ((cur, partStart, pos) :: r.1, (pos, pos + 2) :: r.2)
  | c :: rest, pos, cur, partStart =>
    splitLoop total rest (pos + 1) (cur ++ [c]) partStart

/-- The `for (sepIdx ...)` loop computing `currentArgIndex` from the
separator positions (source lines 684-690): the accumulator is set to the
separator's index whenever the cursor sits at or past its end. -/
def argIndexLoop : List (Nat × Nat) → Nat → Int → Int → Int
  | [], _, _, acc => acc
  | sep :: rest, idx, co, acc =>
    argIndexLoop rest (idx + 1) co (if (sep.2 : Int) ≤ co then (idx : Int) else acc)

/-- JS `trimStart` over the `\s` class. -/
def trimStartWs (l : List Char) : List Char := l.dropWhile isSpace

/-- JS `trimEnd` over the `\s` class. -/
def trimEndWs (l : List Char) : List Char := (l.reverse.dropWhile isSpace).reverse

/-- JS `trim`. -/
def trimWs (l : List Char) : List Char := trimEndWs (trimStartWs l)

/-- JS `String.prototype.search(/\s/)`: index of the first whitespace
character, or `-1`. -/
def firstWsIdx (l : List Char) : Int :=
  match l.findIdx? (fun c => isSpace c) with
  | some n => (n : Int)
  | none => -1

/-- Whitespace skip + flag scan (source lines 566-596): number of leading
whitespace characters, then the flag loop on the remainder. -/
def flagStage (s : List Char) : List Char × List Nat × Nat × List Char :=
  let w := (s.takeWhile isSpace).length
  scanFlags (s.drop w) w false

/-- The collected `flags` array. -/
def flagsOf (s : List Char) : List Char := (flagStage s).1

/-- The `flagEndPositions` array. -/
def flagEnds (s : List Char) : List Nat := (flagStage s).2.1

/-- The scan position `i` after flags (start of `remainingText`). -/
def afterFlagsPos (s : List Char) : Nat := (flagStage s).2.2.1

/-- `remainingText = macroText.slice(i)`. -/
def remainingOf (s : List Char) : List Char := (flagStage s).2.2.2

/-- `currentFlag` determination (source lines 601-609): the last flag,
when flags exist and the cursor is at or after `lastFlagEnd - 1`. -/
def currentFlagOf (s : List Char) (co : Int) : Option Char :=
  match (flagsOf s).getLast?, (flagEnds s).getLast? with
  | some f, some e => if (e : Int) - 1 ≤ co then some f else none
  | _, _ => none

/-- The `parts`/`separatorPositions` computation (source lines 612-633). -/
def splitStage (s : List Char) : List (List Char × Nat × Nat) × List (Nat × Nat) :=
  splitLoop s.length (remainingOf s) (afterFlagsPos s) [] (afterFlagsPos s)

/-- The `parts` array (always non-empty: the loop pushes a final part). -/
def partsOf (s : List Char) : List (List Char × Nat × Nat) := (splitStage s).1

/-- The `separatorPositions` array. -/
def sepsOf (s : List Char) : List (Nat × Nat) := (splitStage s).2

/-- `identifierStartPos = parts[0]?.start ?? i` (source line 636). -/
def identifierStartOf (s : List Char) : Nat :=
  match (partsOf s).head? with
  | some p => p.2.1
  | none => afterFlagsPos s

/-- `firstPartText = parts[0]?.text || ''` (source line 649). -/
def firstPartTextOf (s : List Char) : List Char :=
  match (partsOf s).head? with
  | some p => p.1
  | none => []

/-- `trimmedFirstPart = firstPartText.trimStart()` (source line 650). -/
def trimmedFirstOf (s : List Char) : List Char := trimStartWs (firstPartTextOf s)

/-- The identifier/space-argument split of the first part (source lines
651-673).  Returns `(identifierOnly, spaceArgText, hasSpaceAfterIdentifier)`. -/
def splitIdentStage (s : List Char) : List Char × List Char × Bool :=
  let tfp := trimmedFirstOf s
  let fs := firstWsIdx tfp
  if 0 < fs ∧ (sepsOf s).length = 0 then
    let identifierOnly := tfp.take fs.toNat
    let afterIdentifier := tfp.drop fs.toNat
    let contentAfterSpace := afterIdentifier.dropWhile isSpace
    let hasSp := decide (0 < afterIdentifier.length)
    if 0 < contentAfterSpace.length ∧ ¬(contentAfterSpace.head? = some ':') then
      (identifierOnly, contentAfterSpace, hasSp)
    else
      (identifierOnly, [], hasSp)
  else
    (trimEndWs tfp, [], false)

/-- `identifierOnly`. -/
def identifierOnlyOf (s : List Char) : List Char := (splitIdentStage s).1

/-- `spaceArgText` (left-trimmed content after the identifier's first
whitespace run, or empty). -/
def spaceArgOf (s : List Char) : List Char := (splitIdentStage s).2.1

/-- `hasSpaceAfterIdentifier`. -/
def hasSpaceAfterIdentOf (s : List Char) : Bool := (splitIdentStage s).2.2

/-- `identifierEndPos` (source line 676). -/
def identifierEndOf (s : List Char) : Nat :=
  identifierStartOf s + ((firstPartTextOf s).length - (trimmedFirstOf s).length) +
    (identifierOnlyOf s).length

/-- `isTypingSeparator` (source lines 640-644): cursor sits right after
exactly one `:` that is not part of a completed `::` pair. -/
def isTypingSeparatorOf (s : List Char) (co : Int) : Bool :=
  decide (0 < (remainingOf s).length ∧ (identifierStartOf s : Int) < co ∧
    charAt s (co - 1) = some ':' ∧ ¬(charAt s co = some ':') ∧
    (co < 2 ∨ ¬(charAt s (co - 2) = some ':')))

/-- `currentArgIndex` before the `isTypingSeparator` override (source
lines 679-694). -/
def baseArgIndexOf (s : List Char) (co : Int) : Int :=
  if 0 < (sepsOf s).length then
    argIndexLoop (sepsOf s) 0 co (-1)
  else if 0 < (spaceArgOf s).length ∨
      (hasSpaceAfterIdentOf s = true ∧ (identifierEndOf s : Int) < co) then
    0
  else
    -1

/-- `currentArgIndex` (source lines 679-699): a half-typed separator
forces the index back to `-1`. -/
def currentArgIndexOf (s : List Char) (co : Int) : Int :=
  if isTypingSeparatorOf s co = true then -1 else baseArgIndexOf s co

/-- `cleanIdentifier = identifierOnly.replace(/:+$/, '')` (source line 704). -/
def cleanIdentifierOf (s : List Char) : List Char :=
  ((identifierOnlyOf s).reverse.dropWhile (fun c => c == ':')).reverse

/-- The `args` array (source lines 708-711): every non-first part's
trimmed text, with the space argument (if any) prepended. -/
def argsOf (s : List Char) : List (List Char) :=
  let base := ((partsOf s).drop 1).map (fun p => trimWs p.1)
  if 0 < (spaceArgOf s).length then spaceArgOf s :: base else base

/-- The `MacroAutoCompleteContext` object returned by `parseMacroContext`.
(`isInScopedContent`/`scopedMacroName` are optional fields the parser
never sets; they are omitted.) -/
structure ParseContext where
  fullText : List Char
  cursorOffset : Int
  paddingBefore : List Char
  identifier : List Char
  identifierStart : Nat
  isInFlagsArea : Bool
  flags : List Char
  currentFlag : Option Char
  args : List (List Char)
  currentArgIndex : Int
  isTypingSeparator : Bool
  hasSpaceAfterIdentifier : Bool
  hasSpaceArgContent : Bool
  separatorCount : Nat
  deriving DecidableEq, Repr

/-- `parseMacroContext(macroText, cursorOffset)` (source lines 565-729). -/
def parseMacroContext (macroText : List Char) (cursorOffset : Int) : ParseContext :=
  { fullText := macroText
    cursorOffset := cursorOffset
    paddingBefore := macroText.takeWhile isSpace
    identifier := cleanIdentifierOf macroText
    identifierStart := identifierStartOf macroText
    isInFlagsArea := decide (cursorOffset ≤ (identifierStartOf macroText : Int))
    flags := flagsOf macroText
    currentFlag := currentFlagOf macroText cursorOffset
    args := argsOf macroText
    currentArgIndex := currentArgIndexOf macroText cursorOffset
    isTypingSeparator := isTypingSeparatorOf macroText cursorOffset
    hasSpaceAfterIdentifier := hasSpaceAfterIdentOf macroText
    hasSpaceArgContent := decide (0 < (spaceArgOf macroText).length)
    separatorCount := (sepsOf macroText).length }

/-- The fields of a `MacroDefinition` consumed by the autocomplete option
and arity diagnostics (`name`, `minArgs`, `maxArgs`, `list`); `list` is
`some ()` when a variadic list descriptor is present (`list !== null`).
Rendering-only fields (aliases, descriptions, argument defs) are omitted. -/
structure MacroDefinition where
  name : String
  minArgs : Nat
  maxArgs : Nat
  list : Option Unit
  deriving DecidableEq, Repr

/-- The "too many arguments" message (source line 227), parameterised on
the limit (singular/plural) and the provided count. -/
def msgTooMany (maxArgs argCount : Nat) : String :=
  "Too many arguments: this macro accepts " ++
    (if maxArgs = 0 then "no arguments"
     else "up to " ++ toString maxArgs ++ " argument" ++ (if maxArgs = 1 then "" else "s")) ++
    ", but " ++ toString argCount ++ " provided."

/-- The space-syntax "accepts no arguments" message (source line 235). -/
def msgNoArgsSpace : String :=
  "This macro does not accept any arguments. Remove the space or use a different macro."

/-- The use-`::`-instead message (source line 238). -/
def msgSpaceSyntax (name : String) : String :=
  "Space-separated syntax only works for macros with up to 2 arguments. " ++
    "Use :: separators instead: \x7b\x7b" ++ name ++ "::arg1::arg2\x7d\x7d"

/-- The separator-path "accepts no arguments" message (source line 244). -/
def msgNoArgs : String := "This macro does not accept any arguments."

/-- `EnhancedMacroAutoCompleteOption.#getArityWarning` (source lines
217-248).  The early `return`s of the source become a fall-through
if-chain: the inner space-syntax `if`s fall through to the separator
check when neither fires. -/
def getArityWarning (m : MacroDefinition) (ctx : Option ParseContext) : Option String :=
  match ctx with
  | none => none
  | some c =>
    let argCount := c.args.length
    let maxArgs := m.maxArgs
    let hasList := m.list.isSome
    if hasList = false ∧ maxArgs < argCount then
      some (msgTooMany maxArgs argCount)
    else if c.hasSpaceArgContent = true ∧ maxArgs = 0 then
      some msgNoArgsSpace
    else if c.hasSpaceArgContent = true ∧ hasList = false ∧ 2 < maxArgs then
      some (msgSpaceSyntax m.name)
    else if 0 < c.separatorCount ∧ maxArgs = 0 then
      some msgNoArgs
    else
      none

/-- The constructor's second argument `contextOrOptions`: `null`, a parse
context, or an options object whose keys may each be present or absent
(the source sniffs for the presence of `noBraces`/`paddingAfter`/
`closeWithBraces` keys). -/
inductive CtorArg where
  | null
  | context (ctx : ParseContext)
  | options (noBraces : Option Bool) (paddingAfter : Option String)
      (closeWithBraces : Option Bool)
  deriving DecidableEq, Repr

/-- Whether the constructor argument is an options object that installs
the `closeWithBraces` value provider (source lines 78-81). -/
def installsCloseProvider : CtorArg → Bool
  | .options nb pa cwb => (nb.isSome || pa.isSome || cwb.isSome) && cwb.getD false
  | _ => false

/-- The observable state of an `EnhancedMacroAutoCompleteOption` after
construction.  The `valueProvider` closure is modelled by the string it
returns (it captures only values fixed at construction time). -/
structure MacroOptionState where
  name : String
  context : Option ParseContext
  noBraces : Bool
  paddingAfter : String
  valueProvider : Option String
  makeSelectable : Bool
  deriving DecidableEq, Repr

/-- `EnhancedMacroAutoCompleteOption`'s constructor (source lines 63-100):
shape-sniffs the second argument, then — when no provider was installed —
gives zero-argument, list-less macros an auto-closing provider
`name + paddingAfter + "\x7d\x7d"` and marks them selectable. -/
def mkMacroOption (m : MacroDefinition) (arg : CtorArg) : MacroOptionState :=
  let sniffed :=
    match arg with
    | .null => (false, "", (none : Option ParseContext), (none : Option String), false)
    | .context c => (false, "", some c, none, false)
    | .options nb pa cwb =>
      if nb.isSome || pa.isSome || cwb.isSome then
        let nbv := nb.getD false
        let pav := pa.getD ""
        if cwb.getD false then
          (nbv, pav, none, some (m.name ++ pav ++ "\x7d\x7d"), true)
        else
          (nbv, pav, none, none, false)
      else
        (false, "", none, none, false)
  let noBraces := sniffed.1
  let paddingAfter := sniffed.2.1
  let ctx := sniffed.2.2.1
  let vp0 := sniffed.2.2.2.1
  let sel0 := sniffed.2.2.2.2
  let takesNoArgs := m.minArgs = 0 ∧ m.maxArgs = 0 ∧ m.list = none
  if vp0 = none ∧ takesNoArgs then
    { name := m.name, context := ctx, noBraces := noBraces, paddingAfter := paddingAfter,
      valueProvider := some (m.name ++ paddingAfter ++ "\x7d\x7d"), makeSelectable := true }
  else
    { name := m.name, context := ctx, noBraces := noBraces, paddingAfter := paddingAfter,
      valueProvider := vp0, makeSelectable := sel0 }

/-! ### Helper lemmas -/

/-- The flag scanner pushes one end position per flag: `flags` and
`flagEndPositions` always have equal length. -/
theorem scanFlags_len : ∀ (l : List Char) (i : Nat) (b : Bool),
    (scanFlags l i b).1.length = (scanFlags l i b).2.1.length := by
  intro l
  induction l with
  | nil => intro i b; rfl
  | cons c rest ih =>
    intro i b
    simp only [scanFlags]
    split_ifs with h1 h2 h3
    · exact ih (i + 1) true
    · rfl
    · simp [ih (i + 1) true]
    · rfl

theorem flagsOf_length_eq (t : List Char) : (flagsOf t).length = (flagEnds t).length :=
  scanFlags_len _ _ _

/-- The `currentArgIndex` separator loop either returns its accumulator or
the index of one of the separators it visited. -/
theorem argIndexLoop_eq_acc_or : ∀ (l : List (Nat × Nat)) (idx : Nat) (co acc : Int),
    argIndexLoop l idx co acc = acc ∨
    ∃ k : Nat, k < l.length ∧ argIndexLoop l idx co acc = (idx : Int) + k := by
  intro l
  induction l with
  | nil => intro idx co acc; exact Or.inl rfl
  | cons sep rest ih =>
    intro idx co acc
    simp only [argIndexLoop]
    rcases ih (idx + 1) co (if (sep.2 : Int) ≤ co then (idx : Int) else acc) with h | ⟨k, hk, h⟩
    · rw [h]
      split_ifs with hc
      · exact Or.inr ⟨0, by simp, by simp⟩
      · exact Or.inl rfl
    · refine Or.inr ⟨k + 1, by simpa using Nat.succ_lt_succ hk, ?_⟩
      rw [h]; push_cast; ring

/-! ### Claims -/

/-- C8: `parseMacroContext` is total — it is a plain function over every
input string and every integer caret offset (offsets outside
`[0, text.length]` included), echoing its inputs back in the returned
context; for the empty string it returns `identifier = ""`, `flags = []`,
`args = []` and `currentArgIndex = -1`, at every offset. -/
theorem c8_parse_total :
    (∀ (t : List Char) (co : Int),
      (parseMacroContext t co).fullText = t ∧ (parseMacroContext t co).cursorOffset = co) ∧
    (∀ co : Int,
      (parseMacroContext [] co).identifier = [] ∧
      (parseMacroContext [] co).flags = [] ∧
      (parseMacroContext [] co).args = [] ∧
      (parseMacroContext [] co).currentArgIndex = -1) :=
  ⟨fun _ _ => ⟨rfl, rfl⟩, fun _ => ⟨rfl, rfl, rfl, rfl⟩⟩

/-- C2: `isTypingSeparator` and a non-negative `currentArgIndex` are
mutually exclusive: whenever the returned context has
`isTypingSeparator = true`, `currentArgIndex` is `-1`; in particular
`parse("roll:", 5)` yields `isTypingSeparator = true` and
`currentArgIndex = -1`. -/
theorem c2_typing_separator_resets_arg_index :
    (∀ (t : List Char) (co : Int),
      (parseMacroContext t co).isTypingSeparator = true →
      (parseMacroContext t co).currentArgIndex = -1) ∧
    ((parseMacroContext "roll:".toList 5).isTypingSeparator = true ∧
     (parseMacroContext "roll:".toList 5).currentArgIndex = -1) := by
  constructor
  · intro t co h
    show currentArgIndexOf t co = -1
    have h' : isTypingSeparatorOf t co = true := h
    rw [currentArgIndexOf, if_pos h']
  · exact ⟨by decide, by decide⟩

theorem c2_witness : (parseMacroContext "a:".toList 2).currentArgIndex = -1 :=
  c2_typing_separator_resets_arg_index.1 _ _ (by decide)

/-- C6: the flag scanner never consumes a `/` that is immediately
followed by a letter or underscore, even though `/` is in the
valid-flag-symbol set; for `"/roll"` the returned `flags` is empty at
every caret offset. -/
theorem c6_closing_tag_not_flag :
    (∀ (c : Char) (rest : List Char) (i : Nat) (afterFlag : Bool),
      isIdentChar c = true →
      scanFlags ('/' :: c :: rest) i afterFlag = ([], [], i, '/' :: c :: rest)) ∧
    (∀ co : Int, (parseMacroContext "/roll".toList co).flags = []) ∧
    '/' ∈ ValidFlagSymbols := by
  refine ⟨?_, ?_, by decide⟩
  · intro c rest i afterFlag h
    simp [scanFlags, headIsIdent, h, show isSpace '/' = false from by decide]
  · intro co
    show flagsOf "/roll".toList = []
    decide

theorem c6_witness : scanFlags ('/' :: 'r' :: []) 0 false = ([], [], 0, ['/', 'r']) :=
  c6_closing_tag_not_flag.1 'r' [] 0 false (by decide)

/-- C9: the active argument slot is bounded: `currentArgIndex ≥ -1`
always; `currentArgIndex ≤ separatorCount - 1` when separators exist;
and `currentArgIndex ≤ 0` when there are none. -/
theorem c9_arg_index_bounds :
    ∀ (t : List Char) (co : Int),
      -1 ≤ (parseMacroContext t co).currentArgIndex ∧
      (0 < (parseMacroContext t co).separatorCount →
        (parseMacroContext t co).currentArgIndex ≤
          ((parseMacroContext t co).separatorCount : Int) - 1) ∧
      ((parseMacroContext t co).separatorCount = 0 →
        (parseMacroContext t co).currentArgIndex ≤ 0) := by
  intro t co
  show -1 ≤ currentArgIndexOf t co ∧
    (0 < (sepsOf t).length →
      currentArgIndexOf t co ≤ (((sepsOf t).length : Nat) : Int) - 1) ∧
    ((sepsOf t).length = 0 → currentArgIndexOf t co ≤ 0)
  rw [currentArgIndexOf]
  split_ifs with hts
  · refine ⟨by omega, fun h => ?_, fun _ => by omega⟩
    have h1 : (1 : Int) ≤ ((sepsOf t).length : Int) := by exact_mod_cast h
    omega
  · rw [baseArgIndexOf]
    split_ifs with h1 h2
    · rcases argIndexLoop_eq_acc_or (sepsOf t) 0 co (-1) with h | ⟨k, hk, h⟩ <;> rw [h]
      · have hl : (1 : Int) ≤ ((sepsOf t).length : Int) := by exact_mod_cast h1
        exact ⟨by omega, fun _ => by omega, fun h0 => by omega⟩
      · have hk' : (k : Int) < ((sepsOf t).length : Int) := by exact_mod_cast hk
        have hk0 : (0 : Int) ≤ (k : Int) := Int.natCast_nonneg k
        refine ⟨by omega, fun _ => by omega, fun h0 => ?_⟩
        rw [h0] at hk'
        omega
    · exact ⟨by omega, fun h => absurd h h1, fun _ => by omega⟩
    · exact ⟨by omega, fun h => absurd h h1, fun _ => by omega⟩

theorem c9_witness :
    -1 ≤ (parseMacroContext "a::b".toList 4).currentArgIndex ∧
    (parseMacroContext "a::b".toList 4).currentArgIndex ≤
      ((parseMacroContext "a::b".toList 4).separatorCount : Int) - 1 :=
  ⟨(c9_arg_index_bounds "a::b".toList 4).1,
   (c9_arg_index_bounds "a::b".toList 4).2.1 (by decide)⟩

/-- Auxiliary for C10: a non-empty `spaceArgText` can only arise from the
space-split branch, which requires no separators and records a space
after the identifier. -/
theorem spaceArg_branch (s : List Char) (h : 0 < (spaceArgOf s).length) :
    (sepsOf s).length = 0 ∧ hasSpaceAfterIdentOf s = true := by
  unfold spaceArgOf hasSpaceAfterIdentOf splitIdentStage at *
  simp only [] at *
  split_ifs at * with h1 h2
  · refine ⟨h1.2, ?_⟩
    have hdrop :
        0 < (List.drop (firstWsIdx (trimmedFirstOf s)).toNat (trimmedFirstOf s)).length := by
      by_contra hc
      have hnil : List.drop (firstWsIdx (trimmedFirstOf s)).toNat (trimmedFirstOf s) = [] :=
        List.eq_nil_of_length_eq_zero (by omega)
      rw [hnil] at h2
      simp at h2
    simpa using hdrop
  · simp at h
  · simp at h

/-- C10: `hasSpaceArgContent` is not independent of
`hasSpaceAfterIdentifier`: whenever the context reports space-argument
content, it also reports a space after the identifier, its
`separatorCount` is `0`, and the first element of `args` is exactly the
(trimmed) space-syntax argument text `spaceArgOf`. -/
theorem c10_space_arg_invariants :
    ∀ (t : List Char) (co : Int),
      (parseMacroContext t co).hasSpaceArgContent = true →
      (parseMacroContext t co).hasSpaceAfterIdentifier = true ∧
      (parseMacroContext t co).separatorCount = 0 ∧
      (parseMacroContext t co).args.head? = some (spaceArgOf t) := by
  intro t co h
  have hsp : 0 < (spaceArgOf t).length := of_decide_eq_true h
  obtain ⟨hsep, hafter⟩ := spaceArg_branch t hsp
  refine ⟨hafter, hsep, ?_⟩
  show (argsOf t).head? = some (spaceArgOf t)
  unfold argsOf
  simp only []
  rw [if_pos hsp]
  rfl

theorem c10_witness :
    (parseMacroContext "a b".toList 0).hasSpaceAfterIdentifier = true ∧
    (parseMacroContext "a b".toList 0).separatorCount = 0 ∧
    (parseMacroContext "a b".toList 0).args.head? = some (spaceArgOf "a b".toList) :=
  c10_space_arg_invariants "a b".toList 0 (by decide)

/-- C4: the space syntax and the `::` syntax normalise identically for
the first argument: `parse("getvar myvar", 12)` yields
`identifier = "getvar"`, `args = ["myvar"]`, `currentArgIndex = 0`, and
`parse("getvar::myvar", 13)` yields the same `args` and
`currentArgIndex`; moreover the space-argument split never happens once a
`::` separator is present. -/
theorem c4_space_and_separator_syntax_agree :
    ((parseMacroContext "getvar myvar".toList 12).identifier = "getvar".toList ∧
     (parseMacroContext "getvar myvar".toList 12).args = ["myvar".toList] ∧
     (parseMacroContext "getvar myvar".toList 12).currentArgIndex = 0) ∧
    ((parseMacroContext "getvar::myvar".toList 13).args = ["myvar".toList] ∧
     (parseMacroContext "getvar::myvar".toList 13).currentArgIndex = 0) ∧
    (∀ (t : List Char) (co : Int),
      0 < (parseMacroContext t co).separatorCount →
      (parseMacroContext t co).hasSpaceArgContent = false) := by
  refine ⟨⟨by decide, by decide, by decide⟩, ⟨by decide, by decide⟩, ?_⟩
  intro t co h
  have hsep : ¬((sepsOf t).length = 0) := by
    intro h0
    have h' : 0 < (sepsOf t).length := h
    omega
  have hempty : spaceArgOf t = [] := by
    unfold spaceArgOf splitIdentStage
    simp only []
    rw [if_neg fun hc => hsep hc.2]
  show decide (0 < (spaceArgOf t).length) = false
  rw [hempty]
  rfl

theorem c4_witness : (parseMacroContext "a::b".toList 0).hasSpaceArgContent = false :=
  c4_space_and_separator_syntax_agree.2.2 "a::b".toList 0 (by decide)

/-- C1 counterexample: for `parse("!x", 2)` the caret (offset `2`) is
strictly past the end position of the last (only) consumed flag
(`lastFlagEnd = 1`) — indeed past `identifierStart`, i.e. outside the
flags region — yet `currentFlag` is still `'!'`, not none: the source
compares `cursorOffset >= lastFlagEnd - 1` with no upper bound. -/
theorem c1_currentflag_counterexample :
    (parseMacroContext "!x".toList 2).currentFlag = some '!' ∧
    (flagEnds "!x".toList).getLast? = some 1 ∧
    (parseMacroContext "!x".toList 2).identifierStart = 1 ∧
    (parseMacroContext "!x".toList 2).isInFlagsArea = false :=
  ⟨by decide, by decide, by decide, by decide⟩

/-- C1 (amended): `currentFlag` is the last consumed flag exactly when
`flags` is non-empty and the caret offset is at least one-before the end
position of the last consumed flag — with no upper bound, so once set it
stays set for every larger offset (the caret moving past the flags region
does not clear it); `parse("!?", 2)` yields `currentFlag = '?'`. -/
theorem c1_currentflag_amended :
    (∀ (t : List Char) (co : Int),
      (parseMacroContext t co).currentFlag = none ∨
      (parseMacroContext t co).currentFlag = (parseMacroContext t co).flags.getLast?) ∧
    (∀ (t : List Char), flagsOf t ≠ [] → ∀ co : Int,
      ((parseMacroContext t co).currentFlag ≠ none ↔
        ∃ e, (flagEnds t).getLast? = some e ∧ (e : Int) - 1 ≤ co)) ∧
    (∀ (t : List Char) (co co' : Int), co ≤ co' →
      (parseMacroContext t co).currentFlag ≠ none →
      (parseMacroContext t co').currentFlag = (parseMacroContext t co).currentFlag) ∧
    (parseMacroContext "!?".toList 2).currentFlag = some '?' := by
  have key : ∀ (t : List Char) (co : Int) (f : Char) (e : Nat),
      (flagsOf t).getLast? = some f → (flagEnds t).getLast? = some e →
      currentFlagOf t co = if (e : Int) - 1 ≤ co then some f else none := by
    intro t co f e hf he
    unfold currentFlagOf
    rw [hf, he]
  refine ⟨?_, ?_, ?_, by decide⟩
  · intro t co
    show currentFlagOf t co = none ∨ currentFlagOf t co = (flagsOf t).getLast?
    cases h1 : (flagsOf t).getLast? with
    | none => exact Or.inl (by unfold currentFlagOf; rw [h1])
    | some f =>
      cases h2 : (flagEnds t).getLast? with
      | none => exact Or.inl (by unfold currentFlagOf; rw [h1, h2])
      | some e =>
        rw [key t co f e h1 h2]
        split_ifs with hc
        · exact Or.inr rfl
        · exact Or.inl rfl
  · intro t hne co
    show currentFlagOf t co ≠ none ↔ _
    have h1 : ∃ f, (flagsOf t).getLast? = some f := by
      cases h : (flagsOf t).getLast? with
      | none => exact absurd (List.getLast?_eq_none_iff.mp h) hne
      | some f => exact ⟨f, rfl⟩
    have h2 : ∃ e, (flagEnds t).getLast? = some e := by
      have hlen : (flagEnds t) ≠ [] := by
        intro h0
        have hl := flagsOf_length_eq t
        rw [h0] at hl
        simp only [List.length_nil] at hl
        exact hne (List.eq_nil_of_length_eq_zero hl)
      cases h : (flagEnds t).getLast? with
      | none => exact absurd (List.getLast?_eq_none_iff.mp h) hlen
      | some e => exact ⟨e, rfl⟩
    obtain ⟨f, hf⟩ := h1
    obtain ⟨e, he⟩ := h2
    rw [key t co f e hf he, he]
    split_ifs with hc
    · simp only [ne_eq, reduceCtorEq, not_false_eq_true, true_iff]
      exact ⟨e, rfl, hc⟩
    · simp only [ne_eq, not_true_eq_false, false_iff, not_exists, not_and]
      intro e' he' hle
      cases he'
      exact hc hle
  · intro t co co' hle hne
    show currentFlagOf t co' = currentFlagOf t co
    have hne' : currentFlagOf t co ≠ none := hne
    cases h1 : (flagsOf t).getLast? with
    | none =>
      exfalso
      apply hne'
      unfold currentFlagOf
      rw [h1]
    | some f =>
      cases h2 : (flagEnds t).getLast? with
      | none =>
        exfalso
        apply hne'
        unfold currentFlagOf
        rw [h1, h2]
      | some e =>
        rw [key t co f e h1 h2] at hne' ⊢
        rw [key t co' f e h1 h2]
        split_ifs at hne' with hc
        · rw [if_pos (le_trans hc hle), if_pos hc]
        · simp at hne'

theorem c1_currentflag_amended_witness :
    (parseMacroContext "!?".toList 5).currentFlag = (parseMacroContext "!?".toList 2).currentFlag :=
  c1_currentflag_amended.2.2.1 "!?".toList 2 5 (by decide) (by decide)

/-- `n` back-to-back copies of `"::a"`. -/
def flatRep : Nat → List Char
  | 0 => []
  | n + 1 => ':' :: ':' :: 'a' :: flatRep n

theorem flatRep_eq_flatten : ∀ n : Nat, (List.replicate n ("::a".toList)).flatten = flatRep n := by
  intro n
  induction n with
  | zero => rfl
  | succ n ih => rw [List.replicate_succ, List.flatten_cons, ih]; rfl

/-- One `::`-step of the segmentation loop. -/
theorem splitLoop_sep_step (total pos partStart : Nat) (cur rest : List Char) :
    splitLoop total (':' :: ':' :: rest) pos cur partStart =
      ((cur, partStart, pos) :: (splitLoop total rest (pos + 2) [] (pos + 2)).1,
       (pos, pos + 2) :: (splitLoop total rest (pos + 2) [] (pos + 2)).2) := rfl

/-- One plain-character step of the segmentation loop (for `'a'`). -/
theorem splitLoop_a_step (total pos partStart : Nat) (cur rest : List Char) :
    splitLoop total ('a' :: rest) pos cur partStart =
      splitLoop total rest (pos + 1) (cur ++ ['a']) partStart := rfl

/-- The segmentation of `n` copies of `"::a"`: one additional part per
copy (each with text `"a"`), one separator per copy, the pending part
`cur` closing first. -/
theorem splitLoop_flatRep : ∀ (n total pos partStart : Nat) (cur : List Char),
    (splitLoop total (flatRep n) pos cur partStart).1.length = n + 1 ∧
    (splitLoop total (flatRep n) pos cur partStart).1.head?.map (fun p => p.1) = some cur ∧
    (splitLoop total (flatRep n) pos cur partStart).2.length = n := by
  intro n
  induction n with
  | zero => intro total pos partStart cur; exact ⟨rfl, rfl, rfl⟩
  | succ n ih =>
    intro total pos partStart cur
    rw [flatRep, splitLoop_sep_step, splitLoop_a_step]
    obtain ⟨hl, _, hs⟩ := ih total (pos + 2 + 1) (pos + 2) ([] ++ ['a'])
    refine ⟨?_, rfl, ?_⟩
    · simpa using hl
    · simpa using hs

/-- C3: separator-counting round-trip — for every `n`, parsing `"name"`
followed by `n` copies of `"::a"` with the caret at end of string yields
`separatorCount = n` and `args.length = n` (each non-first `::`-delimited
segment contributes one trimmed argument). -/
theorem c3_separator_counting_roundtrip :
    ∀ n : Nat,
      (parseMacroContext ("name".toList ++ (List.replicate n ("::a".toList)).flatten)
        ((("name".toList ++ (List.replicate n ("::a".toList)).flatten).length : Nat) : Int)).separatorCount
        = n ∧
      (parseMacroContext ("name".toList ++ (List.replicate n ("::a".toList)).flatten)
        ((("name".toList ++ (List.replicate n ("::a".toList)).flatten).length : Nat) : Int)).args.length
        = n := by
  intro n
  rw [flatRep_eq_flatten]
  have hsplit : splitStage ("name".toList ++ flatRep n) =
      splitLoop ("name".toList ++ flatRep n).length (flatRep n) 4 "name".toList 0 := rfl
  obtain ⟨hlen, hhead, hseps⟩ :=
    splitLoop_flatRep n ("name".toList ++ flatRep n).length 4 0 "name".toList
  have hplen : (partsOf ("name".toList ++ flatRep n)).length = n + 1 := by
    unfold partsOf
    rw [hsplit]
    exact hlen
  have hphead : (partsOf ("name".toList ++ flatRep n)).head?.map (fun p => p.1) =
      some "name".toList := by
    unfold partsOf
    rw [hsplit]
    exact hhead
  have hsepn : (sepsOf ("name".toList ++ flatRep n)).length = n := by
    unfold sepsOf
    rw [hsplit]
    exact hseps
  obtain ⟨p, hp, hp1⟩ := Option.map_eq_some'.mp hphead
  have hfp : firstPartTextOf ("name".toList ++ flatRep n) = "name".toList := by
    unfold firstPartTextOf
    rw [hp]
    exact hp1
  have htrim : trimmedFirstOf ("name".toList ++ flatRep n) = "name".toList := by
    unfold trimmedFirstOf
    rw [hfp]
    decide
  have hspace : spaceArgOf ("name".toList ++ flatRep n) = [] := by
    unfold spaceArgOf splitIdentStage
    simp only []
    have hcond : ¬(0 < firstWsIdx (trimmedFirstOf ("name".toList ++ flatRep n)) ∧
        (sepsOf ("name".toList ++ flatRep n)).length = 0) := by
      rw [htrim]
      intro hc
      exact absurd hc.1 (by decide)
    rw [if_neg hcond]
  refine ⟨hsepn, ?_⟩
  show (argsOf ("name".toList ++ flatRep n)).length = n
  unfold argsOf
  simp only []
  rw [hspace]
  simp only [List.length_nil]
  rw [if_neg (lt_irrefl 0), List.length_map, List.length_drop, hplen]
  omega

/-- C5: the arity-warning derivation returns at most one message, chosen
by first match in the fixed order of the source: (1) no list and too many
args → "too many arguments" (saying "up to 1 argument" when
`maxArgs = 1`); (2) else space-arg content with `maxArgs = 0` → "accepts
no arguments", or with no list and `maxArgs > 2` → use-`::`-instead;
(3) else separators on a `maxArgs = 0` macro → "accepts no arguments";
(4) otherwise no warning. -/
theorem c5_arity_warning_order :
    (∀ (m : MacroDefinition) (c : ParseContext),
      m.list.isSome = false → m.maxArgs < c.args.length →
      getArityWarning m (some c) = some (msgTooMany m.maxArgs c.args.length)) ∧
    (∀ (m : MacroDefinition) (c : ParseContext),
      ¬(m.list.isSome = false ∧ m.maxArgs < c.args.length) →
      c.hasSpaceArgContent = true → m.maxArgs = 0 →
      getArityWarning m (some c) = some msgNoArgsSpace) ∧
    (∀ (m : MacroDefinition) (c : ParseContext),
      ¬(m.list.isSome = false ∧ m.maxArgs < c.args.length) →
      c.hasSpaceArgContent = true → ¬(m.maxArgs = 0) →
      m.list.isSome = false → 2 < m.maxArgs →
      getArityWarning m (some c) = some (msgSpaceSyntax m.name)) ∧
    (∀ (m : MacroDefinition) (c : ParseContext),
      ¬(m.list.isSome = false ∧ m.maxArgs < c.args.length) →
      c.hasSpaceArgContent = false → 0 < c.separatorCount → m.maxArgs = 0 →
      getArityWarning m (some c) = some msgNoArgs) ∧
    (∀ (m : MacroDefinition) (c : ParseContext),
      ¬(m.list.isSome = false ∧ m.maxArgs < c.args.length) →
      ¬(c.hasSpaceArgContent = true ∧ m.maxArgs = 0) →
      ¬(c.hasSpaceArgContent = true ∧ m.list.isSome = false ∧ 2 < m.maxArgs) →
      ¬(0 < c.separatorCount ∧ m.maxArgs = 0) →
      getArityWarning m (some c) = none) ∧
    msgTooMany 1 2 = "Too many arguments: this macro accepts up to 1 argument, but 2 provided." := by
  refine ⟨?_, ?_, ?_, ?_, ?_, by decide⟩
  · intro m c h1 h2
    unfold getArityWarning
    simp only []
    rw [if_pos ⟨h1, h2⟩]
  · intro m c h1 h2 h3
    unfold getArityWarning
    simp only []
    rw [if_neg h1, if_pos ⟨h2, h3⟩]
  · intro m c h1 h2 h3 h4 h5
    unfold getArityWarning
    simp only []
    rw [if_neg h1, if_neg fun hc => h3 hc.2, if_pos ⟨h2, h4, h5⟩]
  · intro m c h1 h2 h3 h4
    unfold getArityWarning
    simp only []
    rw [if_neg h1, if_neg fun hc => by rw [h2] at hc; exact Bool.false_ne_true hc.1,
      if_neg fun hc => by rw [h2] at hc; exact Bool.false_ne_true hc.1,
      if_pos ⟨h3, h4⟩]
  · intro m c h1 h2 h3 h4
    unfold getArityWarning
    simp only []
    rw [if_neg h1, if_neg h2, if_neg h3, if_neg h4]

theorem c5_witness :
    getArityWarning ⟨"m", 0, 1, none⟩ (some (parseMacroContext "m::a::b".toList 0)) =
      some (msgTooMany 1 2) :=
  c5_arity_warning_order.1 ⟨"m", 0, 1, none⟩ (parseMacroContext "m::a::b".toList 0)
    (by decide) (by decide)

/-- C7: a `MacroOption` built from a definition with `minArgs = 0`,
`maxArgs = 0` and no list — when no value provider was already installed
by a `closeWithBraces` options object — has `makeSelectable = true` and a
value provider producing `name + paddingAfter + "\x7d\x7d"`. -/
theorem c7_no_arg_auto_close :
    ∀ (m : MacroDefinition) (arg : CtorArg),
      m.minArgs = 0 → m.maxArgs = 0 → m.list = none →
      installsCloseProvider arg = false →
      (mkMacroOption m arg).makeSelectable = true ∧
      (mkMacroOption m arg).valueProvider =
        some (m.name ++ (mkMacroOption m arg).paddingAfter ++ "\x7d\x7d") := by
  intro m arg h1 h2 h3 h4
  cases arg with
  | null => simp [mkMacroOption, h1, h2, h3]
  | context c => simp [mkMacroOption, h1, h2, h3]
  | options nb pa cwb =>
    have h4' : ((nb.isSome || pa.isSome || cwb.isSome) && cwb.getD false) = false := h4
    unfold mkMacroOption
    simp only []
    by_cases hk : (nb.isSome || pa.isSome || cwb.isSome) = true
    · have hc : cwb.getD false = false := by
        rcases Bool.eq_false_or_eq_true (cwb.getD false) with h | h
        · rw [hk, h] at h4'
          exact absurd h4' (by decide)
        · exact h
      simp [hk, hc, h1, h2, h3]
    · simp only [Bool.not_eq_true] at hk
      simp [hk, h1, h2, h3]

theorem c7_witness :
    (mkMacroOption ⟨"pause", 0, 0, none⟩ CtorArg.null).makeSelectable = true ∧
    (mkMacroOption ⟨"pause", 0, 0, none⟩ CtorArg.null).valueProvider =
      some ("pause" ++ (mkMacroOption ⟨"pause", 0, 0, none⟩ CtorArg.null).paddingAfter ++
        "\x7d\x7d") :=
  c7_no_arg_auto_close ⟨"pause", 0, 0, none⟩ CtorArg.null rfl rfl rfl (by decide)
